import Mathlib

/-!
Shallow embedding of the MPD client core (`src/mpd/client.ts` and its
search-cascade variant) of the mpd-mpc-node repository, together with
theorems settling the specification claims about it.

JS string operations (`split`, `includes`, `trim`, `toLowerCase`,
`parseInt`, `parseFloat`, the response-line regex) are modelled
character-exactly on `List Char`; records (plain JS objects used as
string maps) are modelled as association lists with JS property-update
semantics (overwrite in place, insert at the end).
-/

namespace MpdMpc

/-- The JS `\s` character class (whitespace as used by `trim`, `parseInt`,
`parseFloat` and the regex engine). -/
def isJsWhitespace (c : Char) : Bool :=
  c == ' ' || c == '\t' || c == '\n' || c == '\x0b' || c == '\x0c' || c == '\r' ||
  c.toNat == 0xA0 || c.toNat == 0x1680 ||
  (0x2000 ≤ c.toNat && c.toNat ≤ 0x200A) ||
  c.toNat == 0x2028 || c.toNat == 0x2029 || c.toNat == 0x202F ||
  c.toNat == 0x205F || c.toNat == 0x3000 || c.toNat == 0xFEFF

/-- JS regex line terminators (the characters `.` does not match). -/
def isJsLineTerm (c : Char) : Bool :=
  c == '\n' || c == '\r' || c.toNat == 0x2028 || c.toNat == 0x2029

/-- JS `String.prototype.split("\n")` on the character list: split at every
newline, empty input giving one empty chunk. -/
def splitNlChars : List Char → List (List Char)
  | [] => [[]]
  | c :: rest =>
    if c = '\n' then [] :: splitNlChars rest
    else
      match splitNlChars rest with
      | [] => [[c]]
      | l :: ls => (c :: l) :: ls

/-- Split around the first occurrence of the separator `c0 :: sep`;
`none` when the separator does not occur.  Mirrors JS `indexOf`-based
scanning (leftmost match). -/
def firstSplitCh (c0 : Char) (sep : List Char) : List Char → Option (List Char × List Char)
  | [] => none
  | c :: rest =>
    if c == c0 && sep.isPrefixOf rest then some ([], rest.drop sep.length)
    else (firstSplitCh c0 sep rest).map (fun pq => (c :: pq.1, pq.2))

theorem firstSplitCh_length {c0 : Char} {sep s : List Char} {pq : List Char × List Char}
    (h : firstSplitCh c0 sep s = some pq) : pq.2.length < s.length := by
  induction s generalizing pq with
  | nil => simp [firstSplitCh] at h
  | cons c rest ih =>
    by_cases hc : (c == c0 && sep.isPrefixOf rest) = true
    · simp [firstSplitCh, hc] at h
      subst h
      simp [List.length_drop]
      omega
    · simp [firstSplitCh, hc] at h
      obtain ⟨a, b, h1, h2⟩ := h
      subst h2
      have hb := ih h1
      simp at hb ⊢
      omega

/-- Fuel-driven splitter: with fuel at least the string length this
computes JS `split` (the fuel makes the recursion structural, so the
kernel can evaluate it). -/
def jsSplitChF (c0 : Char) (sep : List Char) : Nat → List Char → List (List Char)
  | 0, s => [s]
  | fuel + 1, s =>
    match firstSplitCh c0 sep s with
    | none => [s]
    | some pq => pq.1 :: jsSplitChF c0 sep fuel pq.2

theorem firstSplitCh_nil {c0 : Char} {sep : List Char} {s : List Char}
    (h : s = []) : firstSplitCh c0 sep s = none := by
  subst h; rfl

theorem jsSplitChF_irrel (c0 : Char) (sep : List Char) :
    ∀ f1 f2 s, s.length ≤ f1 → s.length ≤ f2 →
      jsSplitChF c0 sep f1 s = jsSplitChF c0 sep f2 s := by
  intro f1
  induction f1 with
  | zero =>
    intro f2 s h1 _
    have hs : s = [] := List.length_eq_zero.mp (Nat.le_zero.mp h1)
    cases f2 with
    | zero => rfl
    | succ f2 => simp [jsSplitChF, firstSplitCh_nil hs]
  | succ f1 ih =>
    intro f2 s h1 h2
    cases f2 with
    | zero =>
      have hs : s = [] := List.length_eq_zero.mp (Nat.le_zero.mp h2)
      simp [jsSplitChF, firstSplitCh_nil hs]
    | succ f2 =>
      simp only [jsSplitChF]
      cases hfs : firstSplitCh c0 sep s with
      | none => rfl
      | some pq =>
        have hlt := firstSplitCh_length hfs
        simp [ih f2 pq.2 (Nat.le_of_lt_succ (Nat.lt_of_lt_of_le hlt h1))
          (Nat.le_of_lt_succ (Nat.lt_of_lt_of_le hlt h2))]

/-- JS `String.prototype.split` with the non-empty separator `c0 :: sep`:
non-overlapping leftmost matches, always at least one chunk. -/
def jsSplitCh (c0 : Char) (sep : List Char) (s : List Char) : List (List Char) :=
  jsSplitChF c0 sep s.length s

/-- The natural unfolding of `jsSplitCh`: split off the first occurrence
and recurse on the remainder. -/
theorem jsSplitCh_unfold (c0 : Char) (sep : List Char) (s : List Char) :
    jsSplitCh c0 sep s =
      match firstSplitCh c0 sep s with
      | none => [s]
      | some pq => pq.1 :: jsSplitCh c0 sep pq.2 := by
  unfold jsSplitCh
  cases hfs : firstSplitCh c0 sep s with
  | none =>
    cases s with
    | nil => simp [jsSplitChF]
    | cons c rest => simp [jsSplitChF, hfs]
  | some pq =>
    have hlt := firstSplitCh_length hfs
    cases s with
    | nil => simp [firstSplitCh] at hfs
    | cons c rest =>
      simp only [List.length_cons, jsSplitChF, hfs]
      simp [jsSplitChF_irrel c0 sep rest.length pq.2.length pq.2
        (Nat.le_of_lt_succ (by simpa using hlt)) le_rfl]

/-- `String` wrapper for `firstSplitCh` (separator must be non-empty;
the source only splits on `"\n"`, `" - "`, `" ("` and `"("`). -/
def firstSplitStr (s sep : String) : Option (String × String) :=
  match sep.toList with
  | [] => none
  | c0 :: sepRest =>
    (firstSplitCh c0 sepRest s.toList).map (fun pq => (String.mk pq.1, String.mk pq.2))

/-- JS `s.split(sep)` for a non-empty separator. -/
def jsSplitStr (s sep : String) : List String :=
  match sep.toList with
  | [] => [s]
  | c0 :: sepRest => (jsSplitCh c0 sepRest s.toList).map String.mk

/-- JS `s.includes(sep)`. -/
def containsStr (s sep : String) : Bool :=
  match sep.toList with
  | [] => true
  | c0 :: sepRest => (firstSplitCh c0 sepRest s.toList).isSome

/-- JS `s.trim()`: strip `\s` characters from both ends. -/
def jsTrim (s : String) : String :=
  String.mk (((s.toList.dropWhile isJsWhitespace).reverse.dropWhile isJsWhitespace).reverse)

/-- JS `s.toLowerCase()` restricted to ASCII (all protocol keys are ASCII). -/
def jsLower (s : String) : String :=
  String.mk (s.toList.map Char.toLower)

/-- The response-line regex `/^([^:]+):\s(.+)$/` of `parseResponse` /
`parseArrayResponse`: non-empty colon-free key, a colon, one whitespace
character, then a non-empty remainder free of line terminators.
Returns the captured (key, value) character lists. -/
def matchLineChars (line : List Char) : Option (List Char × List Char) :=
  let key := line.takeWhile (fun c => c != ':')
  match line.dropWhile (fun c => c != ':') with
  | ':' :: w :: value =>
    if key != [] && isJsWhitespace w && value != [] &&
        value.all (fun c => !isJsLineTerm c) then
      some (key, value)
    else none
  | _ => none

/-- A decoded record: a JS object used as a map from (lower-cased) field
name to raw string value, modelled as an association list with unique keys
in insertion order. -/
abbrev Rec := List (String × String)

/-- JS property assignment `obj[k] = v`: overwrite in place when the key
exists, otherwise append. -/
def insertField (r : Rec) (k v : String) : Rec :=
  if r.any (fun p => p.1 == k) then
    r.map (fun p => if p.1 == k then (k, v) else p)
  else r ++ [(k, v)]

/-- JS property read `obj[k]` (`undefined` when absent). -/
def lookupRec (r : Rec) (k : String) : Option String :=
  (r.find? (fun p => p.1 == k)).map (fun p => p.2)

/-- One loop iteration of `parseResponse` (client.ts lines 72-78). -/
def parseLine (r : Rec) (line : List Char) : Rec :=
  match matchLineChars line with
  | some kv => insertField r (jsLower (String.mk kv.1)) (String.mk kv.2)
  | none => r

/-- `parseResponse` (client.ts lines 68-81), the spec's `decodeOne`. -/
def parseResponse (data : String) : Rec :=
  (splitNlChars data.toList).foldl parseLine []

/-- One loop iteration of `parseArrayResponse` (client.ts lines 91-106),
acting on the (finished records, current record) state. -/
def parseArrayStep (st : List Rec × Rec) (line : List Char) : List Rec × Rec :=
  match matchLineChars line with
  | none => st
  | some kv =>
    let lcKey := jsLower (String.mk kv.1)
    let v := String.mk kv.2
    if lcKey == "file" && st.2 != [] then
      (st.1 ++ [st.2], insertField [] lcKey v)
    else
      (st.1, insertField st.2 lcKey v)

/-- `parseArrayResponse` (client.ts lines 86-114), the spec's `decodeMany`. -/
def parseArrayResponse (data : String) : List Rec :=
  let st := (splitNlChars data.toList).foldl parseArrayStep ([], [])
  if st.2 != [] then st.1 ++ [st.2] else st.1

/-- A JS number as produced by `parseInt` / `parseFloat`: `NaN`, a signed
infinity, or a finite value (modelled as an exact rational; no claim
depends on double rounding). -/
inductive JsNum where
  | nan
  | inf (neg : Bool)
  | val (q : Rat)
deriving DecidableEq

/-- Decimal digits to a natural number. -/
def digitsToNat (ds : List Char) : Nat :=
  ds.foldl (fun n c => 10 * n + (c.toNat - 48)) 0

/-- JS `parseInt(s, 10)`: skip whitespace, optional sign, longest run of
decimal digits; `NaN` when no digit follows. -/
def parseIntJs (s : String) : JsNum :=
  let cs := s.toList.dropWhile isJsWhitespace
  let sc : Bool × List Char :=
    match cs with
    | '-' :: rest => (true, rest)
    | '+' :: rest => (false, rest)
    | rest => (false, rest)
  let ds := sc.2.takeWhile Char.isDigit
  if ds.isEmpty then .nan
  else .val (if sc.1 then -((digitsToNat ds : Int) : Rat) else ((digitsToNat ds : Int) : Rat))

/-- JS `parseFloat(s)`: skip whitespace, optional sign, then the longest
prefix that is `Infinity` or `digits [. digits] [e|E [sign] digits]`;
`NaN` when no digit occurs before the exponent. -/
def parseFloatJs (s : String) : JsNum :=
  let cs := s.toList.dropWhile isJsWhitespace
  let sc : Bool × List Char :=
    match cs with
    | '-' :: rest => (true, rest)
    | '+' :: rest => (false, rest)
    | rest => (false, rest)
  if ("Infinity".toList).isPrefixOf sc.2 then .inf sc.1
  else
    let intPart := sc.2.takeWhile Char.isDigit
    let afterInt := sc.2.drop intPart.length
    let fracPart :=
      match afterInt with
      | '.' :: rest => rest.takeWhile Char.isDigit
      | _ => []
    let afterFrac :=
      match afterInt with
      | '.' :: rest => rest.drop fracPart.length
      | _ => afterInt
    if intPart.isEmpty && fracPart.isEmpty then .nan
    else
      let expVal : Int :=
        match afterFrac with
        | 'e' :: '-' :: rest =>
          if (rest.takeWhile Char.isDigit).isEmpty then 0
          else -(digitsToNat (rest.takeWhile Char.isDigit) : Int)
        | 'e' :: '+' :: rest =>
          if (rest.takeWhile Char.isDigit).isEmpty then 0
          else (digitsToNat (rest.takeWhile Char.isDigit) : Int)
        | 'e' :: rest =>
          if (rest.takeWhile Char.isDigit).isEmpty then 0
          else (digitsToNat (rest.takeWhile Char.isDigit) : Int)
        | 'E' :: '-' :: rest =>
          if (rest.takeWhile Char.isDigit).isEmpty then 0
          else -(digitsToNat (rest.takeWhile Char.isDigit) : Int)
        | 'E' :: '+' :: rest =>
          if (rest.takeWhile Char.isDigit).isEmpty then 0
          else (digitsToNat (rest.takeWhile Char.isDigit) : Int)
        | 'E' :: rest =>
          if (rest.takeWhile Char.isDigit).isEmpty then 0
          else (digitsToNat (rest.takeWhile Char.isDigit) : Int)
        | _ => 0
      let mantissa : Rat :=
        (digitsToNat intPart : Rat) +
          (digitsToNat fracPart : Rat) / ((10 : Rat) ^ fracPart.length)
      .val ((if sc.1 then -mantissa else mantissa) * (10 : Rat) ^ expVal)

/-- `parseInt(x, 10)` applied to a possibly-`undefined` property
(`parseInt(undefined, 10)` is `NaN`). -/
def parseIntOptJs : Option String → JsNum
  | none => .nan
  | some s => parseIntJs s

/-- `parseFloat(x)` applied to a possibly-`undefined` property
(`parseFloat(undefined)` is `NaN`). -/
def parseFloatOptJs : Option String → JsNum
  | none => .nan
  | some s => parseFloatJs s

/-- `MpdSong` (types.ts) as built by `convertToMpdSong`: every field read
is optional-safe; the numeric ones are guarded by `!== undefined`. -/
structure MpdSong where
  file : Option String
  artist : Option String
  album : Option String
  title : Option String
  track : Option String
  duration : Option JsNum
  pos : Option JsNum
  id : Option JsNum
  time : Option String
deriving DecidableEq

/-- `convertToMpdSong` (client.ts lines 299-312). -/
def convertToMpdSong (data : Rec) : MpdSong where
  file := lookupRec data "file"
  artist := lookupRec data "artist"
  album := lookupRec data "album"
  title := lookupRec data "title"
  track := lookupRec data "track"
  duration := (lookupRec data "duration").map parseFloatJs
  pos := (lookupRec data "pos").map parseIntJs
  id := (lookupRec data "id").map parseIntJs
  time := lookupRec data "time"

/-- `MpdStatus` (types.ts) as built by `status()`: the unguarded numeric
fields (`volume`, `playlist`, `playlistlength`, `mixrampdb`) are always
coerced, so they carry a `JsNum` (possibly `NaN`); the guarded ones are
`Option JsNum` (`none` = `undefined`). `repeat` is a Lean keyword, hence
the `Flag` suffix on the four booleans. -/
structure MpdStatus where
  volume : JsNum
  repeatFlag : Bool
  randomFlag : Bool
  singleFlag : Bool
  consumeFlag : Bool
  playlist : JsNum
  playlistlength : JsNum
  mixrampdb : JsNum
  state : Option String
  song : Option JsNum
  songid : Option JsNum
  time : Option String
  elapsed : Option JsNum
  bitrate : Option JsNum
  duration : Option JsNum
  audio : Option String
  nextsong : Option JsNum
  nextsongid : Option JsNum
deriving DecidableEq

/-- The record-to-`MpdStatus` mapping inside `status()` (client.ts lines
169-198), applied to the already-decoded record. -/
def statusFromRec (parsed : Rec) : MpdStatus where
  volume := parseIntOptJs (lookupRec parsed "volume")
  repeatFlag := lookupRec parsed "repeat" == some "1"
  randomFlag := lookupRec parsed "random" == some "1"
  singleFlag := lookupRec parsed "single" == some "1"
  consumeFlag := lookupRec parsed "consume" == some "1"
  playlist := parseIntOptJs (lookupRec parsed "playlist")
  playlistlength := parseIntOptJs (lookupRec parsed "playlistlength")
  mixrampdb := parseFloatOptJs (lookupRec parsed "mixrampdb")
  state := lookupRec parsed "state"
  song := (lookupRec parsed "song").map parseIntJs
  songid := (lookupRec parsed "songid").map parseIntJs
  time := lookupRec parsed "time"
  elapsed := (lookupRec parsed "elapsed").map parseFloatJs
  bitrate := (lookupRec parsed "bitrate").map parseIntJs
  duration := (lookupRec parsed "duration").map parseFloatJs
  audio := lookupRec parsed "audio"
  nextsong := (lookupRec parsed "nextsong").map parseIntJs
  nextsongid := (lookupRec parsed "nextsongid").map parseIntJs

/-- `MpdStats` (types.ts): every field is coerced unguarded by `stats()`. -/
structure MpdStats where
  artists : JsNum
  albums : JsNum
  songs : JsNum
  uptime : JsNum
  db_playtime : JsNum
  db_update : JsNum
  playtime : JsNum
deriving DecidableEq

/-- The record-to-`MpdStats` mapping inside `stats()` (client.ts lines
215-223). -/
def statsFromRec (parsed : Rec) : MpdStats where
  artists := parseIntOptJs (lookupRec parsed "artists")
  albums := parseIntOptJs (lookupRec parsed "albums")
  songs := parseIntOptJs (lookupRec parsed "songs")
  uptime := parseIntOptJs (lookupRec parsed "uptime")
  db_playtime := parseIntOptJs (lookupRec parsed "db_playtime")
  db_update := parseIntOptJs (lookupRec parsed "db_update")
  playtime := parseIntOptJs (lookupRec parsed "playtime")

/-- A request as seen by the transport: either a pre-formatted command
string (`this.client.sendCommand(command)`) or a command plus token
arguments (`this.client.sendCommand(command, args)`). -/
inductive Req where
  | sendString (s : String)
  | sendArgs (c : String) (args : List String)
deriving DecidableEq

/-- `setVolume` (client.ts lines 142-145): clamp `Math.max(0,
Math.min(100, Math.floor(volume)))`, then send `setvol` with the decimal
rendering of the clamped value.  The input is a finite JS number,
modelled as a rational. -/
def setVolumeReq (volume : Rat) : Req :=
  let vol : Int := max 0 (min 100 volume.floor)
  .sendArgs "setvol" [toString vol]

/-- The clamped integer `setVolume` computes. -/
def setVolumeArg (volume : Rat) : Int :=
  max 0 (min 100 volume.floor)

/-- Failures observable by the client code: the `Not connected to MPD
server` error thrown by `cmd`, the `TypeError` raised by calling
`sendCommand` on an undefined `this.client`, and an error coming from the
transport / daemon. -/
inductive MpdErr where
  | notConnected
  | clientUndef
  | daemon (msg : String)
deriving DecidableEq

/-- The environment a command-issuing operation runs in: the session's
`connected` flag, whether `this.client` is set, and the deterministic
transport/daemon behaviour (raw response text or failure per request). -/
structure Env where
  connected : Bool
  hasClient : Bool
  respond : Req → Except MpdErr String

/-- A direct `this.client.sendCommand(...)` call: throws a `TypeError`
when `this.client` is undefined, otherwise consults the transport.  The
returned list records the requests that actually reached the transport. -/
def sendRaw (env : Env) (r : Req) : Except MpdErr String × List Req :=
  if env.hasClient then (env.respond r, [r]) else (.error .clientUndef, [])

/-- `cmd` (client.ts lines 52-63): guard on `connected` and `client`,
then forward to `sendCommand(command, args)`. -/
def cmdRun (env : Env) (c : String) (args : List String) :
    Except MpdErr String × List Req :=
  if env.connected && env.hasClient then sendRaw env (.sendArgs c args)
  else (.error .notConnected, [])

/-- `"..".replace(/"/g, '\\"')`: backslash-escape every double quote. -/
def escapeQuotes (s : String) : String :=
  String.mk (s.toList.foldr (fun c acc => (if c = '"' then ['\\', '"'] else [c]) ++ acc) [])

/-- The pre-formatted command string built by the search cascade:
`search "<type>" "<query-with-escaped-quotes>"`. -/
def quotedSearchCmd (typ q : String) : String :=
  "search \"" ++ typ ++ "\" \"" ++ escapeQuotes q ++ "\""

/-- `processSearchQuery` (search-cascade client, lines 336-346): when the
query contains `" - "` and `"("`, take `query.split(" - ")[1]`, cut it at
the first `" ("`, and return it trimmed when non-empty (the truthiness
test); otherwise return the query unchanged. -/
def processSearchQuery (query : String) : String :=
  if containsStr query " - " && containsStr query "(" then
    match (jsSplitStr query " - ")[1]? with
    | none => query
    | some seg =>
      let titlePart := (jsSplitStr seg " (").headD ""
      if titlePart != "" then jsTrim titlePart else query
  else query

/-- The primary attempt's request (cascade step 2): quoted-string
encoding of the effective (normalized) query. -/
def searchReq1 (typ query : String) : Req :=
  .sendString (quotedSearchCmd typ (processSearchQuery query))

/-- The title-decoration fallback's query: the raw query's part before
the first `(`, trimmed. -/
def simplifiedTitleQuery (query : String) : String :=
  jsTrim ((jsSplitStr query "(").headD "")

/-- The title-decoration fallback's request (cascade step 3). -/
def searchReq2 (typ query : String) : Req :=
  .sendString (quotedSearchCmd typ (simplifiedTitleQuery query))

/-- The encoding-fallback request (cascade step 4): array/token encoding
of the effective query. -/
def searchReq3 (typ query : String) : Req :=
  .sendArgs "search" [typ, processSearchQuery query]

/-- The guard of the title-decoration fallback (search-cascade client,
line 292). -/
def titleFallbackCond (typ query : String) : Bool :=
  typ == "title" && processSearchQuery query != query && containsStr query "("

/-- The composite `this.parseArrayResponse(response).map(item =>
this.convertToMpdSong(item))` that every search attempt applies to a raw
reply. -/
def parsedSongs (response : String) : List MpdSong :=
  (parseArrayResponse response).map convertToMpdSong

/-- The body of the `try` block of `search` (search-cascade client, lines
279-313): primary quoted-string attempt, conditional simplified-title
retry, then the array-encoding retry whose result is returned even when
empty.  Errors abort the remaining attempts and surface as `.error`;
the trace lists the requests that reached the transport, in order. -/
def searchAttempts (env : Env) (typ query : String) :
    Except MpdErr (List MpdSong) × List Req :=
  match sendRaw env (searchReq1 typ query) with
  | (.error e, t1) => (.error e, t1)
  | (.ok resp1, t1) =>
    if parsedSongs resp1 != [] then (.ok (parsedSongs resp1), t1)
    else if titleFallbackCond typ query then
      match sendRaw env (searchReq2 typ query) with
      | (.error e, t2) => (.error e, t1 ++ t2)
      | (.ok resp2, t2) =>
        if parsedSongs resp2 != [] then (.ok (parsedSongs resp2), t1 ++ t2)
        else
          match cmdRun env "search" [typ, processSearchQuery query] with
          | (.error e, t3) => (.error e, t1 ++ t2 ++ t3)
          | (.ok resp3, t3) => (.ok (parsedSongs resp3), t1 ++ t2 ++ t3)
    else
      match cmdRun env "search" [typ, processSearchQuery query] with
      | (.error e, t3) => (.error e, t1 ++ t3)
      | (.ok resp3, t3) => (.ok (parsedSongs resp3), t1 ++ t3)

/-- `search` (search-cascade client, lines 270-331).  When the attempts
throw: for a non-`any` type the code recurses once with type `any` on the
original raw query (that recursive call's own catch cannot rethrow, so
the `anyError` branch is unreachable); when everything failed it returns
`[]` instead of an error.  The result is therefore always `.ok`. -/
def search (env : Env) (typ query : String) :
    Except MpdErr (List MpdSong) × List Req :=
  match searchAttempts env typ query with
  | (.ok r, t) => (.ok r, t)
  | (.error _, t) =>
    if typ == "any" then (.ok [], t)
    else
      match searchAttempts env "any" query with
      | (.ok r, t2) => (.ok r, t ++ t2)
      | (.error _, t2) => (.ok [], t ++ t2)

/-- The session state relevant to `connect` / `disconnect`:
the `connected` flag, whether `this.client` is set, whether that client
has a `close` function, and whether calling `close()` raises. -/
structure Session where
  connected : Bool
  hasClient : Bool
  hasClose : Bool
  closeRaises : Bool
deriving DecidableEq

/-- `disconnect` (client.ts lines 36-47).  Returns the new session state
and whether an error was caught and logged (it is never rethrown).  The
`connected = false` assignment sits after `await this.client.close()`
inside the `try`, so it is skipped when `close()` raises. -/
def disconnect (s : Session) : Session × Bool :=
  if !s.connected then (s, false)
  else if s.hasClient && s.hasClose then
    if s.closeRaises then (s, true)
    else ({ s with connected := false }, false)
  else ({ s with connected := false }, false)

/-- `connect` (client.ts lines 18-31), with the transport outcome as a
parameter.  Returns the new session state and whether the failure was
rethrown.  A second call while connected returns immediately. -/
def connect (s : Session) (succeeds : Bool) : Session × Bool :=
  if s.connected then (s, false)
  else if succeeds then ({ s with connected := true, hasClient := true }, false)
  else ({ s with connected := false }, true)

/-- Decidable equality for `Except`, needed to evaluate concrete search
outcomes. -/
instance instDecEqExcept {ε α : Type} [DecidableEq ε] [DecidableEq α] :
    DecidableEq (Except ε α) := fun x y =>
  match x, y with
  | .ok a, .ok b =>
    if h : a = b then .isTrue (by rw [h])
    else .isFalse (fun hh => by cases hh; exact h rfl)
  | .ok _, .error _ => .isFalse (fun hh => by cases hh)
  | .error _, .ok _ => .isFalse (fun hh => by cases hh)
  | .error e, .error f =>
    if h : e = f then .isTrue (by rw [h])
    else .isFalse (fun hh => by cases hh; exact h rfl)

/-- Whether an `Except` result is a success. -/
def exceptIsOk {ε α : Type} : Except ε α → Bool
  | .ok _ => true
  | .error _ => false

/-- The value carried by the last line (in order) whose lower-cased key
is `k`; `none` when no matching line has that key.  This is the spec's
"later duplicate keys overwrite earlier ones" reading of `decodeOne`. -/
def lastValueFor (k : String) : List (List Char) → Option String
  | [] => none
  | l :: ls =>
    match lastValueFor k ls with
    | some v => some v
    | none =>
      match matchLineChars l with
      | some kv => if jsLower (String.mk kv.1) == k then some (String.mk kv.2) else none
      | none => none

/-- Render one `Key: Value` protocol line as characters. -/
def renderLineChars (k v : String) : List Char :=
  k.toList ++ ':' :: ' ' :: v.toList

/-- Render the lines of one `file`-bearing block: the `file` line
followed by one line per additional field. -/
def blockLines (b : String × List (String × String)) : List (List Char) :=
  renderLineChars "file" b.1 :: b.2.map (fun p => renderLineChars p.1 p.2)

/-- Join lines with newline separators (inverse of splitting). -/
def joinLines : List (List Char) → List Char
  | [] => []
  | [l] => l
  | l :: l' :: ls => l ++ '\n' :: joinLines (l' :: ls)

/-- Render a list of `file`-bearing blocks as raw response text. -/
def renderBlocks (blocks : List (String × List (String × String))) : String :=
  String.mk (joinLines ((blocks.map blockLines).flatten))

/-- A key that survives the line regex and lower-casing untouched:
non-empty, no colon, no line terminator, already lower-case, and not the
record-boundary key `file`. -/
def goodKey (k : String) : Bool :=
  k.toList != [] && k.toList.all (fun c => c != ':' && !isJsLineTerm c) &&
    jsLower k == k && k != "file"

/-- A value that survives the line regex: non-empty and free of line
terminators. -/
def goodVal (v : String) : Bool :=
  v.toList != [] && v.toList.all (fun c => !isJsLineTerm c)

/-- A well-formed `file`-bearing block: a good file value and at least
one additional field, with distinct good non-`file` keys and good
values. -/
def GoodBlock (b : String × List (String × String)) : Prop :=
  goodVal b.1 = true ∧ b.2 ≠ [] ∧ (b.2.map Prod.fst).Nodup ∧
    ∀ p ∈ b.2, goodKey p.1 = true ∧ goodVal p.2 = true

instance (b : String × List (String × String)) : Decidable (GoodBlock b) := by
  unfold GoodBlock; infer_instance

/-- The record a block should decode to: its `file` field followed by its
other fields. -/
def blockRec (b : String × List (String × String)) : Rec :=
  ("file", b.1) :: b.2

/-- The claim's reading of search-query normalization, following its
words: a raw query matching the shape `<left> - <right> (<tail>` (split
at the first `" - "`, then at the first `" ("`) yields `<right>`
trimmed; any other raw query is returned unchanged.  Written to be
compared with `processSearchQuery`, the function the source implements. -/
def specShapeNormalize (query : String) : String :=
  match firstSplitStr query " - " with
  | none => query
  | some lr =>
    match firstSplitStr lr.2 " (" with
    | none => query
    | some rt => jsTrim rt.1

/-- The amended reading of search-query normalization: when the raw query
contains `" - "` and also contains `"("` anywhere, the candidate is the
segment between the first and second occurrences of `" - "` (to the end
when there is no second), truncated before its first `" ("`; when that
candidate is non-empty the result is the candidate trimmed, otherwise
the raw query; any other query is returned unchanged. -/
def amendedNormalize (query : String) : String :=
  if containsStr query " - " && containsStr query "(" then
    match firstSplitStr query " - " with
    | none => query
    | some lr =>
      let seg : String :=
        match firstSplitStr lr.2 " - " with
        | none => lr.2
        | some pq => pq.1
      let cand : String :=
        match firstSplitStr seg " (" with
        | none => seg
        | some ct => ct.1
      if cand != "" then jsTrim cand else query
  else query

/-! ## Theorems -/

/-- C7: for every (finite) numeric input `v`, `setVolume(v)` sends
`setvol` with the value `clamp(floor(v), 0, 100)`; in particular
`setVolume(-10)` sends `0`, `setVolume(110)` sends `100`, and
`setVolume(50.9)` sends `50` (floored, not rounded); the volume sent is
always within `[0, 100]`. -/
theorem setVolume_clamps (v : Rat) :
    setVolumeReq v = .sendArgs "setvol" [toString (setVolumeArg v)] ∧
    setVolumeArg v = max 0 (min 100 v.floor) ∧
    0 ≤ setVolumeArg v ∧ setVolumeArg v ≤ 100 ∧
    setVolumeReq (-10) = .sendArgs "setvol" ["0"] ∧
    setVolumeReq 110 = .sendArgs "setvol" ["100"] ∧
    setVolumeReq (50.9 : Rat) = .sendArgs "setvol" ["50"] := by
  have hreq : ∀ w : Rat, setVolumeReq w = .sendArgs "setvol" [toString (setVolumeArg w)] :=
    fun _ => rfl
  have hm10 : setVolumeArg (-10 : Rat) = 0 := by
    unfold setVolumeArg
    rw [show Rat.floor (-10 : Rat) = ⌊(-10 : Rat)⌋ from rfl]
    norm_num [min_def, max_def]
  have h110 : setVolumeArg (110 : Rat) = 100 := by
    unfold setVolumeArg
    rw [show Rat.floor (110 : Rat) = ⌊(110 : Rat)⌋ from rfl]
    norm_num [min_def, max_def]
  have h509 : setVolumeArg (50.9 : Rat) = 50 := by
    unfold setVolumeArg
    rw [show Rat.floor (50.9 : Rat) = ⌊(50.9 : Rat)⌋ from rfl]
    norm_num [min_def, max_def]
  refine ⟨hreq v, rfl, le_max_left 0 _, max_le (by norm_num) (min_le_left _ _), ?_, ?_, ?_⟩
  · rw [hreq, hm10]; rfl
  · rw [hreq, h110]; rfl
  · rw [hreq, h509]; rfl

/-- C10: on a connected session whose client has a `close` function that
raises, `disconnect()` logs the error without rethrowing and leaves the
`connected` flag set, so a subsequent `connect()` is a no-op; with the
close function present, the session transitions to disconnected exactly
when `close()` completes without raising. -/
theorem disconnect_close_error_keeps_connected (s : Session)
    (hc : s.connected = true) (hcl : s.hasClient = true) (hcs : s.hasClose = true) :
    (s.closeRaises = true →
        disconnect s = (s, true) ∧
        ∀ b, connect (disconnect s).1 b = ((disconnect s).1, false)) ∧
    ((disconnect s).1.connected = false ↔ s.closeRaises = false) := by
  obtain ⟨c, cl, cs, r⟩ := s
  simp only at hc hcl hcs
  subst hc; subst hcl; subst hcs
  cases r <;> simp [disconnect, connect]

/-- Witness for C10 at the concrete connected session whose close
raises. -/
theorem disconnect_close_error_keeps_connected_witness :
    disconnect ⟨true, true, true, true⟩ = (⟨true, true, true, true⟩, true) ∧
    connect (disconnect ⟨true, true, true, true⟩).1 false
      = ((disconnect ⟨true, true, true, true⟩).1, false) :=
  ⟨((disconnect_close_error_keeps_connected ⟨true, true, true, true⟩ rfl rfl rfl).1 rfl).1,
   ((disconnect_close_error_keeps_connected ⟨true, true, true, true⟩ rfl rfl rfl).1 rfl).2 false⟩

/-- C6 counterexample: on a record with no fields at all (every source
field missing), the unguarded numeric destinations of Status and Stats
are `NaN`, not absent — the mapping substitutes a `NaN` placeholder. -/
theorem mapper_missing_fields_nan :
    lookupRec [] "volume" = none ∧
    (statusFromRec []).volume = .nan ∧
    (statusFromRec []).playlist = .nan ∧
    (statusFromRec []).playlistlength = .nan ∧
    (statusFromRec []).mixrampdb = .nan ∧
    (statsFromRec []).artists = .nan ∧
    (statsFromRec []).albums = .nan ∧
    (statsFromRec []).songs = .nan ∧
    (statsFromRec []).uptime = .nan ∧
    (statsFromRec []).db_playtime = .nan ∧
    (statsFromRec []).db_update = .nan ∧
    (statsFromRec []).playtime = .nan := by
  decide

/-- C6 amended: the guarded numeric destinations (`song`, `songid`,
`elapsed`, `bitrate`, `duration`, `nextsong`, `nextsongid` of Status and
`duration`, `pos`, `id` of Song) map a missing source field to an absent
destination field; the unguarded ones (`volume`, `playlist`,
`playlistlength`, `mixrampdb` of Status and all seven Stats fields) map
a missing source field to `NaN`. -/
theorem mapper_missing_field_behavior (r : Rec) :
    ((lookupRec r "song" = none → (statusFromRec r).song = none) ∧
     (lookupRec r "songid" = none → (statusFromRec r).songid = none) ∧
     (lookupRec r "elapsed" = none → (statusFromRec r).elapsed = none) ∧
     (lookupRec r "bitrate" = none → (statusFromRec r).bitrate = none) ∧
     (lookupRec r "duration" = none → (statusFromRec r).duration = none) ∧
     (lookupRec r "nextsong" = none → (statusFromRec r).nextsong = none) ∧
     (lookupRec r "nextsongid" = none → (statusFromRec r).nextsongid = none) ∧
     (lookupRec r "duration" = none → (convertToMpdSong r).duration = none) ∧
     (lookupRec r "pos" = none → (convertToMpdSong r).pos = none) ∧
     (lookupRec r "id" = none → (convertToMpdSong r).id = none)) ∧
    ((lookupRec r "volume" = none → (statusFromRec r).volume = .nan) ∧
     (lookupRec r "playlist" = none → (statusFromRec r).playlist = .nan) ∧
     (lookupRec r "playlistlength" = none → (statusFromRec r).playlistlength = .nan) ∧
     (lookupRec r "mixrampdb" = none → (statusFromRec r).mixrampdb = .nan) ∧
     (lookupRec r "artists" = none → (statsFromRec r).artists = .nan) ∧
     (lookupRec r "albums" = none → (statsFromRec r).albums = .nan) ∧
     (lookupRec r "songs" = none → (statsFromRec r).songs = .nan) ∧
     (lookupRec r "uptime" = none → (statsFromRec r).uptime = .nan) ∧
     (lookupRec r "db_playtime" = none → (statsFromRec r).db_playtime = .nan) ∧
     (lookupRec r "db_update" = none → (statsFromRec r).db_update = .nan) ∧
     (lookupRec r "playtime" = none → (statsFromRec r).playtime = .nan)) := by
  refine ⟨⟨?_, ?_, ?_, ?_, ?_, ?_, ?_, ?_, ?_, ?_⟩,
          ⟨?_, ?_, ?_, ?_, ?_, ?_, ?_, ?_, ?_, ?_, ?_⟩⟩ <;>
    · intro h
      simp [statusFromRec, statsFromRec, convertToMpdSong, parseIntOptJs,
        parseFloatOptJs, h]

/-- Witness for the amended C6 at the empty record. -/
theorem mapper_missing_field_behavior_witness :
    (statusFromRec []).song = none ∧ (statusFromRec []).volume = .nan :=
  ⟨(mapper_missing_field_behavior []).1.1 rfl,
   (mapper_missing_field_behavior []).2.1 rfl⟩

/-- Overwriting key `k` does not disturb lookups of other keys. -/
theorem find?_map_overwrite_ne (r : Rec) (k v k' : String) (h : ¬ k' = k) :
    (r.map (fun p => if p.1 == k then (k, v) else p)).find? (fun p => p.1 == k')
      = r.find? (fun p => p.1 == k') := by
  induction r with
  | nil => rfl
  | cons p r ih =>
    simp only [List.map_cons]
    by_cases hp : (p.1 == k) = true
    · have hk : p.1 = k := eq_of_beq hp
      have h1 : (k == k') = false := beq_eq_false_iff_ne.mpr (fun hh => h hh.symm)
      have h2 : (p.1 == k') = false := by rw [hk]; exact h1
      rw [if_pos hp]
      simp only [List.find?_cons, h1, h2, ih]
    · rw [if_neg hp]
      cases hp' : (p.1 == k') with
      | true => simp only [List.find?_cons, hp']
      | false => simp only [List.find?_cons, hp']; exact ih

/-- When key `k` occurs, overwriting it makes it look up to the new
value. -/
theorem find?_map_overwrite_self (r : Rec) (k v : String)
    (h : r.any (fun p => p.1 == k) = true) :
    (r.map (fun p => if p.1 == k then (k, v) else p)).find? (fun p => p.1 == k)
      = some (k, v) := by
  induction r with
  | nil => simp at h
  | cons p r ih =>
    simp only [List.map_cons]
    by_cases hp : (p.1 == k) = true
    · rw [if_pos hp]
      simp only [List.find?_cons, show (k == k) = true from beq_self_eq_true k]
    · have hpf : (p.1 == k) = false := by simpa using hp
      rw [if_neg hp]
      simp only [List.find?_cons, hpf]
      exact ih (by simpa [List.any_cons, hpf] using h)

/-- JS property-update semantics at the lookup level: after
`insertField r k v`, key `k` holds `v` and every other key is
unchanged. -/
theorem lookupRec_insertField (r : Rec) (k v k' : String) :
    lookupRec (insertField r k v) k' = if k' = k then some v else lookupRec r k' := by
  unfold insertField lookupRec
  by_cases hany : r.any (fun p => p.1 == k) = true
  · rw [if_pos hany]
    by_cases hk : k' = k
    · subst hk
      rw [find?_map_overwrite_self r k' v hany, if_pos rfl]
      rfl
    · rw [find?_map_overwrite_ne r k v k' hk, if_neg hk]
  · rw [if_neg hany, List.find?_append]
    by_cases hk : k' = k
    · subst hk
      have hnone : r.find? (fun p => p.1 == k') = none := by
        rw [List.find?_eq_none]
        intro x hx hpx
        exact hany (List.any_eq_true.mpr ⟨x, hx, hpx⟩)
      rw [hnone, if_pos rfl]
      simp [List.find?]
    · have hkk : (k == k') = false := beq_eq_false_iff_ne.mpr (fun hh => hk hh.symm)
      have h1 : List.find? (fun p => p.1 == k') [(k, v)] = none := by
        simp [List.find?_cons, hkk]
      rw [h1, if_neg hk]
      simp

/-- The fold of `parseResponse` looks up to the last matching line's
value, falling back to the initial record. -/
theorem foldl_parseLine_lookup (lines : List (List Char)) :
    ∀ (r : Rec) (k : String),
      lookupRec (lines.foldl parseLine r) k =
        match lastValueFor k lines with
        | some v => some v
        | none => lookupRec r k := by
  induction lines with
  | nil => intro r k; rfl
  | cons l ls ih =>
    intro r k
    simp only [List.foldl_cons, ih (parseLine r l) k]
    cases hlast : lastValueFor k ls with
    | some v => simp [lastValueFor, hlast]
    | none =>
      simp only [lastValueFor, hlast]
      cases hm : matchLineChars l with
      | none => simp [parseLine, hm]
      | some kv =>
        simp only [parseLine, hm]
        rw [lookupRec_insertField]
        by_cases hk : k = jsLower (String.mk kv.1)
        · simp [hk]
        · have : (jsLower (String.mk kv.1) == k) = false := by
            simp [beq_eq_false_iff_ne]
            exact fun hh => hk hh.symm
          simp [hk, this]

/-- C8: `decodeOne` lower-cases the key of every `Key: Value` line and
overwrites it into one accumulating record, so looking up any key in the
result yields the value of the last line carrying that (lower-cased)
key; lines not matching the shape are skipped (they never contribute);
`decodeOne("")` returns an empty record. -/
theorem decodeOne_overwrites (data : String) (k : String) :
    lookupRec (parseResponse data) k = lastValueFor k (splitNlChars data.toList) ∧
    parseResponse "" = [] := by
  constructor
  · unfold parseResponse
    rw [foldl_parseLine_lookup]
    cases lastValueFor k (splitNlChars data.toList) <;> rfl
  · rfl

/-- A newline-free line is one whole chunk. -/
theorem splitNl_no_nl (l : List Char) (h : '\n' ∉ l) : splitNlChars l = [l] := by
  induction l with
  | nil => rfl
  | cons c rest ih =>
    have hc : ¬ c = '\n' := fun hh => h (by simp [hh])
    have hr : '\n' ∉ rest := fun hh => h (by simp [hh])
    simp [splitNlChars, hc, ih hr]

/-- Splitting peels off a leading newline-free line. -/
theorem splitNl_append (l rest : List Char) (h : '\n' ∉ l) :
    splitNlChars (l ++ '\n' :: rest) = l :: splitNlChars rest := by
  induction l with
  | nil => simp [splitNlChars]
  | cons c l ih =>
    have hc : ¬ c = '\n' := fun hh => h (by simp [hh])
    have hl : '\n' ∉ l := fun hh => h (by simp [hh])
    simp [splitNlChars, hc, ih hl]

/-- Splitting inverts joining for newline-free lines. -/
theorem splitNl_join (ls : List (List Char)) (hne : ls ≠ [])
    (h : ∀ l ∈ ls, '\n' ∉ l) :
    splitNlChars (joinLines ls) = ls := by
  induction ls with
  | nil => exact absurd rfl hne
  | cons l ls ih =>
    cases ls with
    | nil => simpa [joinLines] using splitNl_no_nl l (h l (by simp))
    | cons l' ls' =>
      rw [show joinLines (l :: l' :: ls') = l ++ '\n' :: joinLines (l' :: ls') from rfl]
      rw [splitNl_append l _ (h l (by simp))]
      rw [ih (by simp) (fun x hx => h x (by simp [hx]))]

theorem takeWhile_append_of_all {α} (p : α → Bool) (xs : List α) (y : α) (ys : List α)
    (hall : ∀ x ∈ xs, p x = true) (hy : p y = false) :
    (xs ++ y :: ys).takeWhile p = xs := by
  induction xs with
  | nil => simp [List.takeWhile_cons, hy]
  | cons a xs ih =>
    have ha : p a = true := hall a (by simp)
    simp [List.takeWhile_cons, ha, ih (fun x hx => hall x (by simp [hx]))]

theorem dropWhile_append_of_all {α} (p : α → Bool) (xs : List α) (y : α) (ys : List α)
    (hall : ∀ x ∈ xs, p x = true) (hy : p y = false) :
    (xs ++ y :: ys).dropWhile p = y :: ys := by
  induction xs with
  | nil => simp [List.dropWhile_cons, hy]
  | cons a xs ih =>
    have ha : p a = true := hall a (by simp)
    simp [List.dropWhile_cons, ha, ih (fun x hx => hall x (by simp [hx]))]

/-- A rendered `Key: Value` line is matched by the line regex exactly as
written, provided the key is colon-free and key and value are non-empty
and free of line terminators. -/
theorem matchLine_render (k v : String)
    (hk1 : k.toList ≠ []) (hk2 : ∀ c ∈ k.toList, (c != ':') = true)
    (hv1 : v.toList ≠ []) (hv2 : ∀ c ∈ v.toList, (!isJsLineTerm c) = true) :
    matchLineChars (renderLineChars k v) = some (k.toList, v.toList) := by
  unfold matchLineChars renderLineChars
  rw [takeWhile_append_of_all _ _ ':' _ hk2 (by decide),
      dropWhile_append_of_all _ _ ':' _ hk2 (by decide)]
  have hw : isJsWhitespace ' ' = true := by decide
  simp [hk1, hv1, hw, List.all_eq_true, hv2]
  exact ⟨by simpa using hk1, by simpa using hv1, fun x hx => by simpa using hv2 x hx⟩

/-- Appending a genuinely new key is a plain append. -/
theorem insertField_of_not_mem (r : Rec) (k v : String)
    (h : ∀ p ∈ r, (p.1 == k) = false) :
    insertField r k v = r ++ [(k, v)] := by
  have hany : r.any (fun p => p.1 == k) = false :=
    List.any_eq_false.mpr (fun p hp => by simp [h p hp])
  simp [insertField, hany]

/-- Folding the rendered non-`file` field lines of a block appends those
fields to the current record, leaving finished records alone. -/
theorem foldl_fields (fs : List (String × String)) :
    ∀ (res : List Rec) (cur : Rec),
      (∀ p ∈ fs, goodKey p.1 = true ∧ goodVal p.2 = true) →
      (fs.map Prod.fst).Nodup →
      (∀ p ∈ fs, ∀ q ∈ cur, (q.1 == p.1) = false) →
      (fs.map (fun p => renderLineChars p.1 p.2)).foldl parseArrayStep (res, cur)
        = (res, cur ++ fs) := by
  induction fs with
  | nil => intro res cur _ _ _; simp
  | cons p fs ih =>
    intro res cur hgood hnodup hdisj
    obtain ⟨hgk, hgv⟩ := hgood p (by simp)
    simp only [goodKey, Bool.and_eq_true, bne_iff_ne, ne_eq, beq_iff_eq,
      List.all_eq_true] at hgk
    obtain ⟨⟨⟨hk1, hk2⟩, hklow⟩, hkfile⟩ := hgk
    simp only [goodVal, Bool.and_eq_true, bne_iff_ne, ne_eq,
      List.all_eq_true] at hgv
    obtain ⟨hv1, hv2⟩ := hgv
    have hmatch : matchLineChars (renderLineChars p.1 p.2)
        = some (p.1.toList, p.2.toList) :=
      matchLine_render p.1 p.2 hk1
        (fun c hc => by simpa using (hk2 c hc).1) hv1
        (fun c hc => hv2 c hc)
    have hmk1 : String.mk p.1.toList = p.1 := rfl
    have hmk2 : String.mk p.2.toList = p.2 := rfl
    have hlc : jsLower p.1 = p.1 := hklow
    have hfile : (p.1 == "file") = false := beq_eq_false_iff_ne.mpr hkfile
    simp only [List.map_cons, List.foldl_cons]
    rw [show parseArrayStep (res, cur) (renderLineChars p.1 p.2)
        = (res, insertField cur p.1 p.2) by
      unfold parseArrayStep
      rw [hmatch]
      simp only [hmk1, hmk2, hlc, hfile, Bool.false_and, if_neg Bool.false_ne_true]]
    have hmap : ((p :: fs).map Prod.fst) = p.1 :: fs.map Prod.fst := rfl
    have hhead : p.1 ∉ fs.map Prod.fst := (List.nodup_cons.mp (hmap ▸ hnodup)).1
    have htail : (fs.map Prod.fst).Nodup := (List.nodup_cons.mp (hmap ▸ hnodup)).2
    rw [insertField_of_not_mem cur p.1 p.2 (fun q hq => hdisj p (by simp) q hq)]
    rw [ih res (cur ++ [(p.1, p.2)])
      (fun q hq => hgood q (by simp [hq]))
      htail
      ?_]
    · simp
    · intro q hq x hx
      rcases List.mem_append.mp hx with hx1 | hx2
      · exact hdisj q (by simp [hq]) x hx1
      · have hxp : x = (p.1, p.2) := by simpa using hx2
        subst hxp
        have hne : p.1 ≠ q.1 := by
          intro hh
          exact hhead (hh ▸ List.mem_map_of_mem Prod.fst hq)
        exact beq_eq_false_iff_ne.mpr hne

/-- Folding one rendered block finalizes a non-empty current record and
leaves the block's own record as the new current record. -/
theorem foldl_block (b : String × List (String × String)) (res : List Rec) (cur : Rec)
    (hgb : GoodBlock b) :
    (blockLines b).foldl parseArrayStep (res, cur)
      = (if cur = [] then res else res ++ [cur], blockRec b) := by
  obtain ⟨hfv, hfs, hnodup, hgood⟩ := hgb
  simp only [goodVal, Bool.and_eq_true, bne_iff_ne, ne_eq, List.all_eq_true] at hfv
  obtain ⟨hv1, hv2⟩ := hfv
  have hmatch : matchLineChars (renderLineChars "file" b.1)
      = some ("file".toList, b.1.toList) :=
    matchLine_render "file" b.1 (by decide) (by decide) hv1 hv2
  have hstep : parseArrayStep (res, cur) (renderLineChars "file" b.1)
      = (if cur = [] then res else res ++ [cur], [("file", b.1)]) := by
    unfold parseArrayStep
    rw [hmatch]
    have hl : jsLower (String.mk "file".toList) = "file" := by decide
    have hl2 : jsLower "file" = "file" := by decide
    have hmkv : String.mk b.1.toList = b.1 := rfl
    have hmkv2 : (⟨b.1.data⟩ : String) = b.1 := rfl
    by_cases hcur : cur = []
    · simp [hl, hl2, hmkv, hmkv2, hcur, insertField]
    · have : (cur != []) = true := bne_iff_ne.mpr hcur
      simp [hl, hl2, hmkv, hmkv2, hcur, this, insertField]
  simp only [blockLines, List.foldl_cons, hstep]
  rw [foldl_fields b.2 _ [("file", b.1)] hgood hnodup ?_]
  · rfl
  · intro p hp q hq
    have hqf : q = ("file", b.1) := by simpa using hq
    subst hqf
    have : p.1 ≠ "file" := by
      have hg := (hgood p hp).1
      simp only [goodKey, Bool.and_eq_true, bne_iff_ne, ne_eq] at hg
      exact hg.2
    exact beq_eq_false_iff_ne.mpr (fun hh => this hh.symm)

/-- The final flush of `parseArrayResponse`. -/
def finalizeSt (st : List Rec × Rec) : List Rec :=
  if st.2 != [] then st.1 ++ [st.2] else st.1

theorem parseArrayResponse_eq (data : String) :
    parseArrayResponse data
      = finalizeSt ((splitNlChars data.toList).foldl parseArrayStep ([], [])) := rfl

/-- Folding any number of rendered blocks from a non-empty current
record, then flushing, appends that record and one record per block. -/
theorem foldBlocks_finalize (bs : List (String × List (String × String))) :
    ∀ (res : List Rec) (cur : Rec), cur ≠ [] → (∀ b ∈ bs, GoodBlock b) →
      finalizeSt (((bs.map blockLines).flatten).foldl parseArrayStep (res, cur))
        = res ++ cur :: bs.map blockRec := by
  induction bs with
  | nil =>
    intro res cur hcur _
    simp [finalizeSt, bne_iff_ne.mpr hcur]
  | cons b bs ih =>
    intro res cur hcur hgb
    simp only [List.map_cons, List.flatten_cons, List.foldl_append]
    rw [foldl_block b res cur (hgb b (by simp)), if_neg hcur]
    have hne : blockRec b ≠ [] := by simp [blockRec]
    rw [ih (res ++ [cur]) (blockRec b) hne (fun b' hb' => hgb b' (by simp [hb']))]
    simp

/-- Every character of a rendered block line is a printable protocol
character, never a newline. -/
theorem blockLines_no_nl (b : String × List (String × String)) (hgb : GoodBlock b) :
    ∀ l ∈ blockLines b, '\n' ∉ l := by
  obtain ⟨hfv, _, _, hgood⟩ := hgb
  simp only [goodVal, Bool.and_eq_true, List.all_eq_true] at hfv
  intro l hl
  simp only [blockLines, List.mem_cons, List.mem_map] at hl
  rcases hl with hl | ⟨p, hp, hl⟩
  · subst hl
    intro hmem
    simp only [renderLineChars, List.mem_append, List.mem_cons] at hmem
    rcases hmem with hmem | hmem
    · revert hmem; decide
    · rcases hmem with hmem | hmem | hmem
      · exact absurd hmem (by decide)
      · exact absurd hmem (by decide)
      · have := hfv.2 '\n' hmem
        revert this; decide
  · subst hl
    have hgk := (hgood p hp).1
    have hgv := (hgood p hp).2
    simp only [goodKey, Bool.and_eq_true, List.all_eq_true] at hgk
    simp only [goodVal, Bool.and_eq_true, List.all_eq_true] at hgv
    intro hmem
    simp only [renderLineChars, List.mem_append, List.mem_cons] at hmem
    rcases hmem with hmem | hmem
    · have := hgk.1.1.2 '\n' hmem
      revert this; decide
    · rcases hmem with hmem | hmem | hmem
      · exact absurd hmem (by decide)
      · exact absurd hmem (by decide)
      · have := hgv.2 '\n' hmem
        revert this; decide

/-- C3: `decodeMany` applied to the text of N `file`-bearing blocks,
each with at least one additional field, returns exactly the N records
of those blocks, each containing exactly its own block's fields and no
others; and `decodeMany("")` returns an empty list. -/
theorem decodeMany_blocks (blocks : List (String × List (String × String)))
    (hgood : ∀ b ∈ blocks, GoodBlock b) :
    parseArrayResponse (renderBlocks blocks) = blocks.map blockRec ∧
    parseArrayResponse "" = [] := by
  refine ⟨?_, rfl⟩
  cases blocks with
  | nil => rfl
  | cons b bs =>
    rw [parseArrayResponse_eq]
    have hnl : ∀ l ∈ ((b :: bs).map blockLines).flatten, '\n' ∉ l := by
      intro l hl
      rcases List.mem_flatten.mp hl with ⟨ls, hls, hmem⟩
      rcases List.mem_map.mp hls with ⟨b', hb', rfl⟩
      exact blockLines_no_nl b' (hgood b' hb') l hmem
    have hne : ((b :: bs).map blockLines).flatten ≠ [] := by
      simp [blockLines]
    have hsplit : splitNlChars (renderBlocks (b :: bs)).toList
        = ((b :: bs).map blockLines).flatten := by
      rw [show (renderBlocks (b :: bs)).toList
          = joinLines (((b :: bs).map blockLines).flatten) from rfl]
      exact splitNl_join _ hne hnl
    rw [hsplit]
    simp only [List.map_cons, List.flatten_cons, List.foldl_append]
    rw [foldl_block b [] [] (hgood b (by simp)), if_pos rfl]
    have hbne : blockRec b ≠ [] := by simp [blockRec]
    rw [foldBlocks_finalize bs [] (blockRec b) hbne
      (fun b' hb' => hgood b' (by simp [hb']))]
    simp

/-- Witness for C3 on two concrete blocks. -/
theorem decodeMany_blocks_witness :
    parseArrayResponse (renderBlocks
        [("a.mp3", [("title", "X")]), ("b.mp3", [("artist", "Y"), ("album", "Z")])])
      = [[("file", "a.mp3"), ("title", "X")],
         [("file", "b.mp3"), ("artist", "Y"), ("album", "Z")]] ∧
    parseArrayResponse "" = [] :=
  ⟨(decodeMany_blocks
      [("a.mp3", [("title", "X")]), ("b.mp3", [("artist", "Y"), ("album", "Z")])]
      (by decide)).1.trans (by decide),
   (decodeMany_blocks [] (by decide)).2⟩

/-- `split(sep)[0]` is the text before the first occurrence of the
separator (the whole string when the separator does not occur). -/
theorem jsSplitStr_headD (s sep : String) :
    (jsSplitStr s sep).headD "" =
      match firstSplitStr s sep with
      | none => s
      | some ct => ct.1 := by
  unfold jsSplitStr firstSplitStr
  cases hsep : sep.toList with
  | nil => rfl
  | cons c0 rest =>
    dsimp only
    rw [jsSplitCh_unfold]
    cases hfs : firstSplitCh c0 rest s.toList with
    | none => rfl
    | some pq => rfl

/-- `split(sep)[1]` is the text between the first and second occurrences
of the separator (through the end when there is no second occurrence),
`undefined` when the separator does not occur at all. -/
theorem jsSplitStr_getElem_one (s sep : String) :
    (jsSplitStr s sep)[1]? =
      match firstSplitStr s sep with
      | none => none
      | some lr =>
        some (match firstSplitStr lr.2 sep with
              | none => lr.2
              | some pq => pq.1) := by
  unfold jsSplitStr firstSplitStr
  cases hsep : sep.toList with
  | nil => rfl
  | cons c0 rest =>
    dsimp only
    rw [jsSplitCh_unfold]
    cases hfs : firstSplitCh c0 rest s.toList with
    | none => rfl
    | some pq =>
      simp only [Option.map_some', List.map_cons, List.getElem?_cons_succ]
      dsimp only [String.toList]
      rw [jsSplitCh_unfold]
      cases hfs2 : firstSplitCh c0 rest pq.2 with
      | none => rfl
      | some pq2 => simp

/-- C4 counterexample: the raw query `"a - b(c"` does not match the
claimed shape `<left> - <right> (<tail>` (there is no `" ("`), so under
the claim normalization should leave it unchanged; the code nevertheless
rewrites it to `"b(c"`, because its guard only requires `" - "` and a
bare `"("` somewhere in the query. -/
theorem processSearchQuery_shape_mismatch :
    processSearchQuery "a - b(c" = "b(c" ∧
    specShapeNormalize "a - b(c" = "a - b(c" ∧
    ("b(c" : String) ≠ "a - b(c" := by
  refine ⟨?_, ?_, ?_⟩ <;> decide

/-- C4 amended: normalization is a pure function of the raw query: when
the query contains `" - "` and contains `"("` anywhere, the candidate is
the segment between the first and second occurrences of `" - "` (to the
end when there is no second), truncated before its first `" ("`; when
the candidate is non-empty the effective query is the candidate trimmed,
otherwise (and for every query failing the guard) the effective query is
the raw query unchanged; the original string is never mutated. -/
theorem processSearchQuery_eq_amended (q : String) :
    processSearchQuery q = amendedNormalize q := by
  unfold processSearchQuery amendedNormalize
  by_cases hcond : (containsStr q " - " && containsStr q "(") = true
  · rw [if_pos hcond, if_pos hcond, jsSplitStr_getElem_one]
    cases hfs : firstSplitStr q " - " with
    | none => rfl
    | some lr =>
      simp only
      rw [jsSplitStr_headD]
  · rw [if_neg hcond, if_neg hcond]

/-- C1 counterexample: connectivity failures are swallowed by the search
cascade, not propagated.  On a never-connected session (`client`
undefined) the cascade raises a `TypeError`-style failure internally and
`search` returns an empty ok list; on a connected session whose transport
reports a lost connection on every request, every attempt raises and
`search` still returns an empty ok list (after the broaden-to-any
retry), never an error. -/
theorem search_swallows_connectivity_failure :
    (searchAttempts ⟨false, false, fun _ => .error (.daemon "boom")⟩ "title" "x").1
        = .error .clientUndef ∧
    search ⟨false, false, fun _ => .error (.daemon "boom")⟩ "title" "x"
        = (.ok [], []) ∧
    (searchAttempts ⟨true, true, fun _ => .error (.daemon "connection lost")⟩ "title" "x").1
        = .error (.daemon "connection lost") ∧
    search ⟨true, true, fun _ => .error (.daemon "connection lost")⟩ "title" "x"
        = (.ok [], [searchReq1 "title" "x", searchReq1 "any" "x"]) := by
  refine ⟨?_, ?_, ?_, ?_⟩ <;> decide

/-- C1 amended: `search` never propagates any failure to its caller; its
result is always ok, and when both the original cascade and the
broaden-to-any rerun raise (for example on a connectivity failure),
`search` converts the failure into an empty result list. -/
theorem search_never_propagates_failure (env : Env) (typ query : String) :
    (∃ r t, search env typ query = (Except.ok r, t)) ∧
    (exceptIsOk (searchAttempts env typ query).1 = false →
      exceptIsOk (searchAttempts env "any" query).1 = false →
      (search env typ query).1 = Except.ok []) := by
  rcases hA : searchAttempts env typ query with ⟨resA, tA⟩
  rcases hB : searchAttempts env "any" query with ⟨resB, tB⟩
  constructor
  · cases resA with
    | ok r => exact ⟨r, tA, by simp [search, hA]⟩
    | error e =>
      by_cases hty : (typ == "any") = true
      · exact ⟨[], tA, by simp [search, hA, hty]⟩
      · cases resB with
        | ok r => exact ⟨r, tA ++ tB, by simp [search, hA, hB, hty]⟩
        | error f => exact ⟨[], tA ++ tB, by simp [search, hA, hB, hty]⟩
  · intro h1 h2
    cases resA with
    | ok r => simp [exceptIsOk] at h1
    | error e =>
      cases resB with
      | ok r => simp [exceptIsOk] at h2
      | error f =>
        by_cases hty : (typ == "any") = true
        · simp [search, hA, hty]
        · simp [search, hA, hB, hty]

/-- C2: when the transport answers every request, the resolver's
attempts occur in the fixed order primary quoted-string attempt,
title-decoration fallback (exactly under its triple guard), then
array-encoding retry, terminating on the first non-empty result; the
trace of requests reaching the transport records that order. -/
theorem search_cascade_order (env : Env) (typ query s1 s2 s3 : String)
    (hc : env.connected = true) (hcl : env.hasClient = true)
    (h1 : env.respond (searchReq1 typ query) = .ok s1)
    (h2 : env.respond (searchReq2 typ query) = .ok s2)
    (h3 : env.respond (searchReq3 typ query) = .ok s3) :
    (parsedSongs s1 ≠ [] →
      search env typ query = (.ok (parsedSongs s1), [searchReq1 typ query])) ∧
    (parsedSongs s1 = [] → titleFallbackCond typ query = true → parsedSongs s2 ≠ [] →
      search env typ query
        = (.ok (parsedSongs s2), [searchReq1 typ query, searchReq2 typ query])) ∧
    (parsedSongs s1 = [] → titleFallbackCond typ query = true → parsedSongs s2 = [] →
      search env typ query
        = (.ok (parsedSongs s3),
            [searchReq1 typ query, searchReq2 typ query, searchReq3 typ query])) ∧
    (parsedSongs s1 = [] → titleFallbackCond typ query = false →
      search env typ query
        = (.ok (parsedSongs s3), [searchReq1 typ query, searchReq3 typ query])) := by
  have e1 : sendRaw env (searchReq1 typ query) = (.ok s1, [searchReq1 typ query]) := by
    simp [sendRaw, hcl, h1]
  have e2 : sendRaw env (searchReq2 typ query) = (.ok s2, [searchReq2 typ query]) := by
    simp [sendRaw, hcl, h2]
  have e3 : cmdRun env "search" [typ, processSearchQuery query]
      = (.ok s3, [searchReq3 typ query]) := by
    simp only [searchReq3] at h3
    simp [cmdRun, sendRaw, hc, hcl, h3, searchReq3]
  refine ⟨?_, ?_, ?_, ?_⟩
  · intro hr1
    simp [search, searchAttempts, e1, hr1]
  · intro hr1 hcond hr2
    simp [search, searchAttempts, e1, e2, hr1, hcond, hr2]
  · intro hr1 hcond hr2
    simp [search, searchAttempts, e1, e2, e3, hr1, hcond, hr2]
  · intro hr1 hcond
    simp [search, searchAttempts, e1, e3, hr1, hcond]

/-- Witness for C2: a transport that answers the primary attempt with one
song record makes `search` return after exactly that one request. -/
theorem search_cascade_order_witness :
    search (⟨true, true, fun r =>
        if r = searchReq1 "title" "A - B (C)" then Except.ok "file: x.mp3"
        else Except.ok ""⟩ : Env) "title" "A - B (C)"
      = (.ok (parsedSongs "file: x.mp3"), [searchReq1 "title" "A - B (C)"]) :=
  (search_cascade_order (⟨true, true, fun r =>
        if r = searchReq1 "title" "A - B (C)" then Except.ok "file: x.mp3"
        else Except.ok ""⟩ : Env) "title" "A - B (C)" "file: x.mp3" "" ""
      rfl rfl (by decide) (by decide) (by decide)).1 (by decide)

/-- C5 counterexample: with a connected session whose daemon answers
every request with an empty reply, the scenario query issues exactly the
primary quoted-string command and the array-encoding retry — two
commands, steps 2 then 4 — and returns the empty list; no broaden-to-any
(step 5) command is ever issued, contradicting the claimed 2→4→5
sequence. -/
theorem search_scenario_trace :
    search ⟨true, true, fun _ => .ok ""⟩ "title" "Be Quiet and Drive (Far Away)"
      = (.ok [], [searchReq1 "title" "Be Quiet and Drive (Far Away)",
                  searchReq3 "title" "Be Quiet and Drive (Far Away)"]) ∧
    searchReq1 "title" "Be Quiet and Drive (Far Away)"
      = .sendString "search \"title\" \"Be Quiet and Drive (Far Away)\"" ∧
    searchReq3 "title" "Be Quiet and Drive (Far Away)"
      = .sendArgs "search" ["title", "Be Quiet and Drive (Far Away)"] := by
  refine ⟨?_, ?_, ?_⟩ <;> decide

/-- C5 amended: for the scenario query and type `title`, when the daemon
returns an empty (non-error) result for every attempt, the resolver
issues the primary quoted-string command (step 2) and then the
array-encoding retry (step 4) only, in that order, and returns the empty
list; the broaden-to-`any` step runs only when an attempt raises. -/
theorem search_scenario_empty_responses (env : Env) (s1 s3 : String)
    (hc : env.connected = true) (hcl : env.hasClient = true)
    (h1 : env.respond (searchReq1 "title" "Be Quiet and Drive (Far Away)") = .ok s1)
    (hp1 : parsedSongs s1 = [])
    (h3 : env.respond (searchReq3 "title" "Be Quiet and Drive (Far Away)") = .ok s3)
    (hp3 : parsedSongs s3 = []) :
    search env "title" "Be Quiet and Drive (Far Away)"
      = (.ok [], [searchReq1 "title" "Be Quiet and Drive (Far Away)",
                  searchReq3 "title" "Be Quiet and Drive (Far Away)"]) := by
  have hcond : titleFallbackCond "title" "Be Quiet and Drive (Far Away)" = false := by
    decide
  have e1 : sendRaw env (searchReq1 "title" "Be Quiet and Drive (Far Away)")
      = (.ok s1, [searchReq1 "title" "Be Quiet and Drive (Far Away)"]) := by
    simp [sendRaw, hcl, h1]
  have e3 : cmdRun env "search"
        ["title", processSearchQuery "Be Quiet and Drive (Far Away)"]
      = (.ok s3, [searchReq3 "title" "Be Quiet and Drive (Far Away)"]) := by
    simp only [searchReq3] at h3
    simp [cmdRun, sendRaw, hc, hcl, h3, searchReq3]
  simp [search, searchAttempts, e1, e3, hp1, hp3, hcond]

/-- Witness for the amended C5 with the all-empty daemon. -/
theorem search_scenario_empty_responses_witness :
    search ⟨true, true, fun _ => .ok ""⟩ "title" "Be Quiet and Drive (Far Away)"
      = (.ok [], [searchReq1 "title" "Be Quiet and Drive (Far Away)",
                  searchReq3 "title" "Be Quiet and Drive (Far Away)"]) :=
  search_scenario_empty_responses ⟨true, true, fun _ => .ok ""⟩ "" ""
    rfl rfl rfl (by decide) rfl (by decide)

/-- Witness for the amended C1: on a disconnected session both cascade
runs fail, yet `search` returns an ok empty result. -/
theorem search_never_propagates_failure_witness :
    (∃ r t, search ⟨false, false, fun _ => .error (.daemon "x")⟩ "title" "q"
        = (Except.ok r, t)) ∧
    (search ⟨false, false, fun _ => .error (.daemon "x")⟩ "title" "q").1 = Except.ok [] :=
  ⟨(search_never_propagates_failure ⟨false, false, fun _ => .error (.daemon "x")⟩
      "title" "q").1,
   (search_never_propagates_failure ⟨false, false, fun _ => .error (.daemon "x")⟩
      "title" "q").2 (by decide) (by decide)⟩

end MpdMpc
